import Mathlib

/-
Verification of the starlink-coverage script (src/main.py).

The development embeds the footprint geometry, the H3 grid mapper call structure,
the coverage accumulator and the time-window driver loop as Lean definitions and
proves the specified properties about them.  Real-valued library calls (numpy,
geog, h3, skyfield) that the script treats as black boxes are either embedded
from their documented arithmetic (linspace) or taken as function parameters of
the driver; everything else follows the Python source line by line.
-/

open Real

/-- Mean Earth radius in kilometers, the R_MEAN module constant of the script. -/
noncomputable def R_MEAN : ℝ := 6378.1

/-- Fixed H3 grid resolution level used for the whole run. -/
def H3_RESOLUTION_LEVEL : Nat := 4

/-- Degrees to radians, embedding the to_rads helper. -/
noncomputable def to_rads (degrees : ℝ) : ℝ := degrees * (π / 180)

/-- Radians to degrees, embedding the to_deg helper. -/
noncomputable def to_deg (radians : ℝ) : ℝ := radians * (180 / π)

/-- Ninety degrees in radians, embedding the RIGHT_ANGLE module constant. -/
noncomputable def RIGHT_ANGLE : ℝ := to_rads 90

/-- Argument handed to math.asin inside calcCapAngle and calcAreaSpherical. -/
noncomputable def asinArg (altitude term_angle : ℝ) : ℝ :=
  Real.sin (to_rads term_angle + RIGHT_ANGLE) * R_MEAN / (R_MEAN + altitude)

/-- Embedding of calcCapAngle.  Python math.asin raises ValueError when its
argument lies outside the closed interval from -1 to 1; the failure is modelled
as none.  On the domain the function returns lambda_FOV / 2 exactly as written
in the source, including the factor 2 that is immediately divided away. -/
noncomputable def calcCapAngle (altitude term_angle : ℝ) : Option ℝ :=
  if |asinArg altitude term_angle| ≤ 1 then
    some (2 * (π - (to_rads term_angle + RIGHT_ANGLE +
      Real.arcsin (asinArg altitude term_angle))) / 2)
  else none

/-- Embedding of calcAreaSpherical, the diagnostic cap-area companion. -/
noncomputable def calcAreaSpherical (altitude term_angle : ℝ) : Option ℝ :=
  if |asinArg altitude term_angle| ≤ 1 then
    some (2 * π * R_MEAN ^ 2 *
      (1 - Real.cos (2 * (π - (to_rads term_angle + RIGHT_ANGLE +
        Real.arcsin (asinArg altitude term_angle))) / 2)))
  else none

/-- Closed form of the value calcCapAngle returns on its domain. -/
noncomputable def capAngleVal (altitude term_angle : ℝ) : ℝ :=
  π - (to_rads term_angle + RIGHT_ANGLE + Real.arcsin (asinArg altitude term_angle))

theorem RIGHT_ANGLE_eq : RIGHT_ANGLE = π / 2 := by
  unfold RIGHT_ANGLE to_rads; ring

theorem R_MEAN_pos : (0 : ℝ) < R_MEAN := by unfold R_MEAN; norm_num

theorem asinArg_eq_cos (altitude term_angle : ℝ) :
    asinArg altitude term_angle = Real.cos (to_rads term_angle) * R_MEAN / (R_MEAN + altitude) := by
  unfold asinArg
  rw [RIGHT_ANGLE_eq, Real.sin_add_pi_div_two]

theorem to_rads_nonneg (e : ℝ) (h : 0 ≤ e) : 0 ≤ to_rads e := by
  unfold to_rads
  have hpi : (0 : ℝ) ≤ π / 180 := by positivity
  exact mul_nonneg h hpi

theorem to_rads_le_pi_div_two (e : ℝ) (h : e ≤ 90) : to_rads e ≤ π / 2 := by
  unfold to_rads
  have hpi : (0 : ℝ) ≤ π / 180 := by positivity
  have := mul_le_mul_of_nonneg_right h hpi
  linarith [this]

theorem asinArg_bounds (altitude term_angle : ℝ) (h1 : 0 ≤ altitude)
    (h2 : 0 ≤ term_angle) (h3 : term_angle ≤ 90) :
    0 ≤ asinArg altitude term_angle ∧ asinArg altitude term_angle ≤ 1 := by
  rw [asinArg_eq_cos]
  have ht0 : 0 ≤ to_rads term_angle := to_rads_nonneg _ h2
  have ht1 : to_rads term_angle ≤ π / 2 := to_rads_le_pi_div_two _ h3
  have hcos0 : 0 ≤ Real.cos (to_rads term_angle) := by
    apply Real.cos_nonneg_of_mem_Icc
    constructor
    · linarith [Real.pi_pos]
    · exact ht1
  have hcos1 : Real.cos (to_rads term_angle) ≤ 1 := Real.cos_le_one _
  have hden : (0 : ℝ) < R_MEAN + altitude := by linarith [R_MEAN_pos]
  constructor
  · exact div_nonneg (mul_nonneg hcos0 R_MEAN_pos.le) hden.le
  · rw [div_le_one hden]
    nlinarith [R_MEAN_pos]

theorem asinArg_abs_le (altitude term_angle : ℝ) (h1 : 0 ≤ altitude)
    (h2 : 0 ≤ term_angle) (h3 : term_angle ≤ 90) :
    |asinArg altitude term_angle| ≤ 1 := by
  have h := asinArg_bounds altitude term_angle h1 h2 h3
  rw [abs_le]
  exact ⟨by linarith [h.1], h.2⟩

theorem calcCapAngle_of_dom (altitude term_angle : ℝ)
    (h : |asinArg altitude term_angle| ≤ 1) :
    calcCapAngle altitude term_angle = some (capAngleVal altitude term_angle) := by
  unfold calcCapAngle capAngleVal
  rw [if_pos h]
  congr 1
  ring

/-- C2: wherever the computation is defined, calcCapAngle returns exactly
pi minus the sum of the elevation in radians, a right angle, and the arcsin of
sin of that sum times R_MEAN over R_MEAN plus the altitude, with R_MEAN equal
to 6378.1 km and the right angle equal to pi over two. -/
theorem calcCapAngle_closed_form (h e : ℝ) (hdom : |asinArg h e| ≤ 1) :
    calcCapAngle h e =
      some (π - (to_rads e + π / 2 +
        Real.arcsin (Real.sin (to_rads e + π / 2) * R_MEAN / (R_MEAN + h)))) ∧
    R_MEAN = 6378.1 ∧ RIGHT_ANGLE = π / 2 := by
  refine ⟨?_, rfl, RIGHT_ANGLE_eq⟩
  rw [calcCapAngle_of_dom _ _ hdom]
  unfold capAngleVal asinArg
  rw [RIGHT_ANGLE_eq]

/-- Witness for C2 at altitude 550 km and elevation 35 degrees. -/
theorem calcCapAngle_closed_form_witness :
    calcCapAngle 550 35 =
      some (π - (to_rads 35 + π / 2 +
        Real.arcsin (Real.sin (to_rads 35 + π / 2) * R_MEAN / (R_MEAN + 550)))) :=
  (calcCapAngle_closed_form 550 35
    (asinArg_abs_le 550 35 (by norm_num) (by norm_num) (by norm_num))).1

/-- C10: under nonnegative altitude and elevation between 0 and 90 degrees,
the argument passed to asin in calcCapAngle and calcAreaSpherical equals
cos of the elevation in radians times R_MEAN over R_MEAN plus the altitude,
lies in the closed interval from 0 to 1, and therefore the domain-error branch
is unreachable: both functions are total on that domain. -/
theorem asinArg_domain_safe (alt e : ℝ) (h1 : 0 ≤ alt) (h2 : 0 ≤ e) (h3 : e ≤ 90) :
    asinArg alt e = Real.sin (to_rads e + π / 2) * R_MEAN / (R_MEAN + alt) ∧
    asinArg alt e = Real.cos (to_rads e) * R_MEAN / (R_MEAN + alt) ∧
    0 ≤ asinArg alt e ∧ asinArg alt e ≤ 1 ∧
    (calcCapAngle alt e).isSome = true ∧ (calcAreaSpherical alt e).isSome = true := by
  have hb := asinArg_bounds alt e h1 h2 h3
  have habs := asinArg_abs_le alt e h1 h2 h3
  refine ⟨?_, asinArg_eq_cos alt e, hb.1, hb.2, ?_, ?_⟩
  · unfold asinArg
    rw [RIGHT_ANGLE_eq]
  · unfold calcCapAngle
    rw [if_pos habs]
    rfl
  · unfold calcAreaSpherical
    rw [if_pos habs]
    rfl

/-- Witness for C10 at altitude 550 km and elevation 35 degrees. -/
theorem asinArg_domain_safe_witness :
    0 ≤ asinArg 550 35 ∧ asinArg 550 35 ≤ 1 ∧ (calcCapAngle 550 35).isSome = true := by
  have h := asinArg_domain_safe 550 35 (by norm_num) (by norm_num) (by norm_num)
  exact ⟨h.2.2.1, h.2.2.2.1, h.2.2.2.2.1⟩

/-- Coverage map: the defaultdict from grid-cell identifier to visit count,
modelled as an association list in insertion order. -/
abbrev CovMap := List (String × Nat)

/-- Keys of a coverage map are pairwise distinct, as in a Python dict. -/
def keysNodup (m : CovMap) : Prop := (m.map Prod.fst).Nodup

/-- Embedding of the statement coverage[cell] += 1 on a defaultdict with
default 0: bump the first entry holding the key, else append the key with
count 1, exactly the observable effect of the Python statement. -/
def dictIncr : CovMap → String → CovMap
  | [], k => [(k, 1)]
  | pr :: rest, k => if pr.1 = k then (pr.1, pr.2 + 1) :: rest else pr :: dictIncr rest k

/-- Lookup with default 0, the read side of the defaultdict. -/
def dictGet : CovMap → String → Nat
  | [], _ => 0
  | pr :: rest, k => if pr.1 = k then pr.2 else dictGet rest k

/-- Embedding of the per-step loop for cell in coverage_set incrementing the
coverage map once per distinct cell. -/
def incrAll (m : CovMap) (cells : List String) : CovMap :=
  cells.foldl dictIncr m

/-- Embedding of coverage_set.add: the Python set is modelled as a
duplicate-free list in insertion order. -/
def setAdd (s : List String) (c : String) : List String :=
  if c ∈ s then s else s ++ [c]

/-- Union of the per-satellite cell lists of one step, built exactly as the
nested loops of the script build coverage_set. -/
def buildCovSet (css : List (List String)) : List String :=
  css.foldl (fun s cs => cs.foldl setAdd s) []

/-- One iteration of the accumulator: union the cell sets of all satellites
for the step, then increment each distinct cell of the union once. -/
def stepAccum (cov : CovMap) (css : List (List String)) : CovMap :=
  incrAll cov (buildCovSet css)

/-- The accumulation loop over a list of steps, starting from the empty map. -/
def runSteps (steps : List (List (List String))) : CovMap :=
  steps.foldl stepAccum []

theorem dictGet_cons (pr : String × Nat) (rest : CovMap) (c : String) :
    dictGet (pr :: rest) c = if pr.1 = c then pr.2 else dictGet rest c := rfl

theorem dictIncr_cons_pos (pr : String × Nat) (rest : CovMap) (k : String) (h : pr.1 = k) :
    dictIncr (pr :: rest) k = (pr.1, pr.2 + 1) :: rest := by
  simp [dictIncr, h]

theorem dictIncr_cons_neg (pr : String × Nat) (rest : CovMap) (k : String) (h : ¬ pr.1 = k) :
    dictIncr (pr :: rest) k = pr :: dictIncr rest k := by
  simp [dictIncr, h]

theorem dictIncr_get (m : CovMap) (k c : String) :
    dictGet (dictIncr m k) c = dictGet m c + (if c = k then 1 else 0) := by
  induction m with
  | nil =>
    by_cases h : k = c
    · subst h; simp [dictIncr, dictGet]
    · have h2 : ¬ c = k := fun hh => h hh.symm
      simp [dictIncr, dictGet, h, h2]
  | cons pr rest ih =>
    by_cases h1 : pr.1 = k
    · rw [dictIncr_cons_pos pr rest k h1, dictGet_cons, dictGet_cons]
      by_cases h2 : pr.1 = c
      · have hck : c = k := by rw [← h2, h1]
        rw [if_pos h2, if_pos h2, if_pos hck]
      · have hck : ¬ c = k := fun hh => h2 (by rw [h1, ← hh])
        rw [if_neg h2, if_neg h2, if_neg hck]
        omega
    · rw [dictIncr_cons_neg pr rest k h1, dictGet_cons, dictGet_cons]
      by_cases h2 : pr.1 = c
      · have hck : ¬ c = k := fun hh => h1 (by rw [h2, hh])
        rw [if_pos h2, if_pos h2, if_neg hck]
        omega
      · rw [if_neg h2, if_neg h2, ih]

theorem dictIncr_keys_mem (m : CovMap) (k c : String) :
    c ∈ (dictIncr m k).map Prod.fst ↔ c ∈ m.map Prod.fst ∨ c = k := by
  induction m with
  | nil => simp [dictIncr]
  | cons pr rest ih =>
    by_cases h1 : pr.1 = k
    · rw [dictIncr_cons_pos pr rest k h1]
      simp only [List.map_cons, List.mem_cons, h1]
      tauto
    · rw [dictIncr_cons_neg pr rest k h1]
      simp only [List.map_cons, List.mem_cons, ih]
      tauto

theorem dictIncr_keysNodup (m : CovMap) (k : String) (h : keysNodup m) :
    keysNodup (dictIncr m k) := by
  unfold keysNodup at *
  induction m with
  | nil => simp [dictIncr]
  | cons pr rest ih =>
    by_cases h1 : pr.1 = k
    · rw [dictIncr_cons_pos pr rest k h1]
      simpa using h
    · rw [dictIncr_cons_neg pr rest k h1]
      simp only [List.map_cons, List.nodup_cons] at h ⊢
      refine ⟨?_, ih h.2⟩
      rw [dictIncr_keys_mem]
      rintro (hm | hk)
      · exact h.1 hm
      · exact h1 hk

theorem incrAll_get (l : List String) (m : CovMap) (c : String) (hl : l.Nodup) :
    dictGet (incrAll m l) c = dictGet m c + (if c ∈ l then 1 else 0) := by
  induction l generalizing m with
  | nil => simp [incrAll]
  | cons a l ih =>
    simp only [List.nodup_cons] at hl
    have step : incrAll m (a :: l) = incrAll (dictIncr m a) l := rfl
    rw [step, ih _ hl.2, dictIncr_get]
    by_cases h : c = a
    · subst h
      simp [hl.1]
    · simp [h]

theorem incrAll_keysNodup (l : List String) (m : CovMap) (h : keysNodup m) :
    keysNodup (incrAll m l) := by
  induction l generalizing m with
  | nil => exact h
  | cons a l ih => exact ih _ (dictIncr_keysNodup m a h)

theorem mem_foldl_setAdd (cs : List String) (s : List String) (c : String) :
    c ∈ cs.foldl setAdd s ↔ c ∈ s ∨ c ∈ cs := by
  induction cs generalizing s with
  | nil => simp
  | cons a cs ih =>
    have hstep : (a :: cs).foldl setAdd s = cs.foldl setAdd (setAdd s a) := rfl
    rw [hstep, ih]
    unfold setAdd
    by_cases h : a ∈ s
    · simp only [if_pos h, List.mem_cons]
      constructor
      · rintro (hs | hc)
        · exact Or.inl hs
        · exact Or.inr (Or.inr hc)
      · rintro (hs | hca | hcl)
        · exact Or.inl hs
        · exact Or.inl (hca ▸ h)
        · exact Or.inr hcl
    · simp only [if_neg h, List.mem_append, List.mem_singleton, List.mem_cons]
      tauto

theorem nodup_foldl_setAdd (cs : List String) (s : List String) (h : s.Nodup) :
    (cs.foldl setAdd s).Nodup := by
  induction cs generalizing s with
  | nil => exact h
  | cons a cs ih =>
    have hstep : (a :: cs).foldl setAdd s = cs.foldl setAdd (setAdd s a) := rfl
    rw [hstep]
    apply ih
    unfold setAdd
    by_cases ha : a ∈ s
    · simpa [ha] using h
    · simp only [if_neg ha]
      exact List.Nodup.append h (List.nodup_singleton a) (by simpa using ha)

theorem mem_buildCovSet_aux (css : List (List String)) (s : List String) (c : String) :
    c ∈ css.foldl (fun s cs => cs.foldl setAdd s) s ↔ c ∈ s ∨ ∃ cs ∈ css, c ∈ cs := by
  induction css generalizing s with
  | nil => simp
  | cons cs css ih =>
    have hstep : ((cs :: css).foldl (fun s cs => cs.foldl setAdd s) s)
        = css.foldl (fun s cs => cs.foldl setAdd s) (cs.foldl setAdd s) := rfl
    rw [hstep, ih, mem_foldl_setAdd]
    simp only [List.mem_cons]
    constructor
    · rintro ((hs | hc) | ⟨cs2, hcs2, hc2⟩)
      · exact Or.inl hs
      · exact Or.inr ⟨cs, Or.inl rfl, hc⟩
      · exact Or.inr ⟨cs2, Or.inr hcs2, hc2⟩
    · rintro (hs | ⟨cs2, (hcs2 | hcs2), hc2⟩)
      · exact Or.inl (Or.inl hs)
      · exact Or.inl (Or.inr (hcs2 ▸ hc2))
      · exact Or.inr ⟨cs2, hcs2, hc2⟩

theorem mem_buildCovSet (css : List (List String)) (c : String) :
    c ∈ buildCovSet css ↔ ∃ cs ∈ css, c ∈ cs := by
  unfold buildCovSet
  rw [mem_buildCovSet_aux]
  simp

theorem nodup_buildCovSet_aux (css : List (List String)) (s : List String) (h : s.Nodup) :
    (css.foldl (fun s cs => cs.foldl setAdd s) s).Nodup := by
  induction css generalizing s with
  | nil => exact h
  | cons cs css ih => exact ih _ (nodup_foldl_setAdd cs s h)

theorem buildCovSet_nodup (css : List (List String)) : (buildCovSet css).Nodup :=
  nodup_buildCovSet_aux css [] List.nodup_nil

/-- Geodetic sub-satellite point of one satellite at one instant, as returned
by the skyfield propagator: latitude and longitude in degrees, altitude in km. -/
structure SubPoint where
  lat : ℝ
  lng : ℝ
  alt : ℝ

/-- Timestamp exactly as handed to ts.utc: raw calendar fields; the minute
field may exceed 59, as in the script. -/
structure UTCTime where
  year : Nat
  month : Nat
  day : Nat
  hour : Nat
  minute : Nat
  second : Nat

/-- Point in longitude-latitude space as built by shapely Point with lng
first. -/
structure GeogPoint where
  x : ℝ
  y : ℝ

/-- Embedding of numpy.linspace with its default inclusive endpoint, from the
documented arithmetic of numpy: num values from start to stop in equal
increments of size the span over num minus one. -/
noncomputable def linspace (start stop : ℝ) (num : Nat) : List ℝ :=
  (List.range num).map (fun i : Nat => start + (stop - start) * (i : ℝ) / ((num : ℝ) - 1))

/-- Embedding of get_cell_ids_h3.  The calls into the geog and h3 libraries
are taken as function parameters: propagate maps a center point, a list of
bearings in degrees and a distance in meters to the polygon vertices, and
polyfill maps the vertex list, a resolution and the geo-json flag to the
covering cell identifiers. -/
noncomputable def get_cell_ids_h3
    (propagate : GeogPoint → List ℝ → ℝ → List GeogPoint)
    (polyfill : List GeogPoint → Nat → Bool → List String)
    (lat lng angle : ℝ) : List String :=
  let p : GeogPoint := ⟨lng, lat⟩
  let arc_length : ℝ := R_MEAN * angle
  let n_points : Nat := 20
  let d : ℝ := arc_length * 1000
  let angles : List ℝ := linspace 0 360 n_points
  let polygon : List GeogPoint := propagate p angles d
  polyfill polygon H3_RESOLUTION_LEVEL true

/-- Python exception value; the script constructs one when a mapper result is
empty. -/
structure PyException where
  message : String

/-- Embedding of the empty-region test of the main loop: the length comparison
is evaluated and an exception value is constructed when the cell list is
empty, but with no raise statement the value is discarded and the cells pass
through unchanged. -/
def emptyRegionCheck (cells : List String) : List String :=
  let e : Option PyException :=
    if cells.length = 0 then some ⟨"empty region returned"⟩ else none
  cells

/-- One time step of the driver: iterate the satellites in order, compute the
cap angle of each (an uncaught math domain error aborts the whole run,
modelled by none), map the cap to grid cells, run the empty-region test, and
add every cell to the coverage set of the step. -/
noncomputable def stepCells
    (propagate : GeogPoint → List ℝ → ℝ → List GeogPoint)
    (polyfill : List GeogPoint → Nat → Bool → List String)
    (pts : List SubPoint) : Option (List String) :=
  pts.foldlM (fun s pt =>
    (calcCapAngle pt.alt 35).map (fun angle =>
      (emptyRegionCheck (get_cell_ids_h3 propagate polyfill pt.lat pt.lng angle)).foldl
        setAdd s)) []

/-- Number of one-minute steps each process runs, 1440 // 4 in the script. -/
def TIME_PER_PROCESS : Nat := 1440 / 4

/-- First minute of the partition assigned to the process. -/
def START_TIME (process : Nat) : Nat := process * TIME_PER_PROCESS

/-- Timestamp of step i of the process, exactly the arguments the script
passes to ts.utc. -/
def simTime (process i : Nat) : UTCTime :=
  ⟨2020, 6, 20, 0, START_TIME process + i, 0⟩

/-- Embedding of the main loop: for each of the TIME_PER_PROCESS steps obtain
all sub-satellite points at the step time from the propagator, build the
coverage set of the step, and increment the count of each covered cell once.
An uncaught exception in any step aborts the run, modelled by none. -/
noncomputable def runDriver (process : Nat) (subpt : UTCTime → List SubPoint)
    (propagate : GeogPoint → List ℝ → ℝ → List GeogPoint)
    (polyfill : List GeogPoint → Nat → Bool → List String) : Option CovMap :=
  (List.range TIME_PER_PROCESS).foldlM (fun cov i =>
    (stepCells propagate polyfill (subpt (simTime process i))).map
      (fun s => incrAll cov s)) []

/-- Records written at the end of the run, one per coverage-map entry, exactly
as the final loop of the script writes them. -/
def outputLines (m : CovMap) : List String :=
  m.map (fun pr => pr.1 ++ "," ++ toString pr.2 ++ "\n")

/-- Name of the output file of the process. -/
def outputFileName (process : Nat) : String :=
  "h3_" ++ toString H3_RESOLUTION_LEVEL ++ "_cov_" ++ toString process ++ ".txt"

/-- C3: the driver iterates exactly 1440 / 4 = 360 one-minute steps, step i at
the raw timestamp startOffset plus i minutes past midnight UTC on 2020-06-20
with startOffset the process index times 360; each step obtains every
sub-satellite point once, builds the union of the mapped per-satellite cell
sets via stepCells and accumulates it into the coverage map. -/
theorem driver_schedule (p : Nat) (subpt : UTCTime → List SubPoint)
    (propagate : GeogPoint → List ℝ → ℝ → List GeogPoint)
    (polyfill : List GeogPoint → Nat → Bool → List String) :
    TIME_PER_PROCESS = 1440 / 4 ∧ TIME_PER_PROCESS = 360 ∧ START_TIME p = p * 360 ∧
    (∀ i, simTime p i = ⟨2020, 6, 20, 0, p * 360 + i, 0⟩) ∧
    runDriver p subpt propagate polyfill =
      (List.range 360).foldlM (fun cov i =>
        (stepCells propagate polyfill (subpt ⟨2020, 6, 20, 0, p * 360 + i, 0⟩)).map
          (fun s => incrAll cov s)) [] := by
  have htpp : TIME_PER_PROCESS = 360 := by norm_num [TIME_PER_PROCESS]
  have hst : START_TIME p = p * 360 := by rw [START_TIME, htpp]
  have hsim : ∀ i, simTime p i = ⟨2020, 6, 20, 0, p * 360 + i, 0⟩ := by
    intro i
    rw [simTime, hst]
  refine ⟨rfl, htpp, hst, hsim, ?_⟩
  rw [runDriver, htpp]
  have hfun : (fun (cov : CovMap) (i : Nat) =>
      (stepCells propagate polyfill (subpt (simTime p i))).map (fun s => incrAll cov s))
      = (fun (cov : CovMap) (i : Nat) =>
      (stepCells propagate polyfill (subpt ⟨2020, 6, 20, 0, p * 360 + i, 0⟩)).map
        (fun s => incrAll cov s)) := by
    funext cov i
    rw [hsim i]
  rw [hfun]

/-- C7: the grid mapper builds its polygon from exactly 20 bearings, the i-th
bearing being i times 360 / 19 degrees so that consecutive bearings are
equally spaced, propagates them from the center point outward by the
great-circle arc length R_MEAN times the half angle converted to meters, and
fills the resulting polygon with cells at the fixed resolution level 4. -/
theorem grid_mapper_structure
    (propagate : GeogPoint → List ℝ → ℝ → List GeogPoint)
    (polyfill : List GeogPoint → Nat → Bool → List String)
    (lat lng angle : ℝ) :
    (linspace 0 360 20).length = 20 ∧
    (∀ i : Nat, i < 20 → (linspace 0 360 20).getD i 0 = 360 * i / 19) ∧
    (∀ i : Nat, i + 1 < 20 →
      (linspace 0 360 20).getD (i + 1) 0 - (linspace 0 360 20).getD i 0 = 360 / 19) ∧
    H3_RESOLUTION_LEVEL = 4 ∧
    get_cell_ids_h3 propagate polyfill lat lng angle =
      polyfill (propagate ⟨lng, lat⟩ (linspace 0 360 20) (R_MEAN * angle * 1000))
        H3_RESOLUTION_LEVEL true := by
  have hlen : (linspace 0 360 20).length = 20 := by
    unfold linspace
    rw [List.length_map, List.length_range]
  have hval : ∀ i : Nat, i < 20 → (linspace 0 360 20).getD i 0 = 360 * i / 19 := by
    intro i hi
    unfold linspace
    rw [List.getD_eq_getElem?_getD, List.getElem?_map, List.getElem?_range hi,
      Option.map_some', Option.getD_some]
    push_cast
    ring
  refine ⟨hlen, hval, ?_, rfl, rfl⟩
  intro i hi
  rw [hval (i + 1) hi, hval i (by omega)]
  push_cast
  ring

theorem emptyRegionCheck_eq (cells : List String) : emptyRegionCheck cells = cells := rfl

theorem stepCells_aux
    (propagate : GeogPoint → List ℝ → ℝ → List GeogPoint)
    (polyfill : List GeogPoint → Nat → Bool → List String) :
    ∀ (pts : List SubPoint) (s0 s : List String),
      pts.foldlM (fun s pt =>
        (calcCapAngle pt.alt 35).map (fun angle =>
          (emptyRegionCheck (get_cell_ids_h3 propagate polyfill pt.lat pt.lng angle)).foldl
            setAdd s)) s0 = some s →
      (s0.Nodup → s.Nodup) ∧
      (∀ c, c ∈ s ↔ c ∈ s0 ∨ ∃ pt ∈ pts, ∃ a, calcCapAngle pt.alt 35 = some a ∧
        c ∈ get_cell_ids_h3 propagate polyfill pt.lat pt.lng a) := by
  intro pts
  induction pts with
  | nil =>
    intro s0 s h
    rw [List.foldlM_nil] at h
    have hss : s0 = s := by
      injection h
    subst hss
    refine ⟨id, ?_⟩
    intro c
    simp
  | cons pt pts ih =>
    intro s0 s h
    rw [List.foldlM_cons] at h
    cases hc : calcCapAngle pt.alt 35 with
    | none =>
      rw [hc] at h
      simp at h
    | some a =>
      rw [hc] at h
      simp only [Option.map_some', Option.some_bind, emptyRegionCheck_eq] at h
      obtain ⟨hnd, hmem⟩ := ih _ _ h
      constructor
      · intro h0
        exact hnd (nodup_foldl_setAdd _ _ h0)
      · intro c
        rw [hmem c, mem_foldl_setAdd]
        constructor
        · rintro ((hs0 | hcg) | ⟨pt2, hpt2, a2, ha2, hc2⟩)
          · exact Or.inl hs0
          · exact Or.inr ⟨pt, List.mem_cons_self pt pts, a, hc, hcg⟩
          · exact Or.inr ⟨pt2, List.mem_cons_of_mem _ hpt2, a2, ha2, hc2⟩
        · rintro (hs0 | ⟨pt2, hpt2, a2, ha2, hc2⟩)
          · exact Or.inl (Or.inl hs0)
          · rcases List.mem_cons.mp hpt2 with heq | hmem2
            · subst heq
              rw [hc] at ha2
              injection ha2 with ha2
              subst ha2
              exact Or.inl (Or.inr hc2)
            · exact Or.inr ⟨pt2, hmem2, a2, ha2, hc2⟩

theorem stepCells_nodup
    (propagate : GeogPoint → List ℝ → ℝ → List GeogPoint)
    (polyfill : List GeogPoint → Nat → Bool → List String)
    (pts : List SubPoint) (s : List String)
    (h : stepCells propagate polyfill pts = some s) : s.Nodup := by
  unfold stepCells at h
  exact (stepCells_aux propagate polyfill pts [] s h).1 List.nodup_nil

theorem stepCells_mem
    (propagate : GeogPoint → List ℝ → ℝ → List GeogPoint)
    (polyfill : List GeogPoint → Nat → Bool → List String)
    (pts : List SubPoint) (s : List String)
    (h : stepCells propagate polyfill pts = some s) (c : String) :
    c ∈ s ↔ ∃ pt ∈ pts, ∃ a, calcCapAngle pt.alt 35 = some a ∧
      c ∈ get_cell_ids_h3 propagate polyfill pt.lat pt.lng a := by
  unfold stepCells at h
  rw [(stepCells_aux propagate polyfill pts [] s h).2 c]
  simp

/-- C1: within one driver step the coverage map gains exactly 1 at a cell
covered by some satellite of the step and 0 at every other cell, never more:
the increment is over the set union of the per-satellite cell sets, and
membership in the step coverage set is exactly coverage by some satellite. -/
theorem step_union_semantics
    (propagate : GeogPoint → List ℝ → ℝ → List GeogPoint)
    (polyfill : List GeogPoint → Nat → Bool → List String)
    (pts : List SubPoint) (s : List String) (cov : CovMap) (c : String)
    (hs : stepCells propagate polyfill pts = some s) :
    dictGet (incrAll cov s) c = dictGet cov c + (if c ∈ s then 1 else 0) ∧
    (c ∈ s ↔ ∃ pt ∈ pts, ∃ a, calcCapAngle pt.alt 35 = some a ∧
      c ∈ get_cell_ids_h3 propagate polyfill pt.lat pt.lng a) := by
  refine ⟨?_, stepCells_mem propagate polyfill pts s hs c⟩
  exact incrAll_get s cov c (stepCells_nodup propagate polyfill pts s hs)

/-- Witness for C1: one satellite at altitude 550 km whose mapped cell set is
a single cell; the count of that cell rises from 0 to 1. -/
theorem step_union_semantics_witness :
    dictGet (incrAll [] ["a"]) "a" = dictGet [] "a" + (if "a" ∈ ["a"] then 1 else 0) := by
  have hcap := calcCapAngle_of_dom 550 35
    (asinArg_abs_le 550 35 (by norm_num) (by norm_num) (by norm_num))
  have hstep : stepCells (fun _ _ _ => []) (fun _ _ _ => ["a"])
      [⟨0, 0, 550⟩] = some ["a"] := by
    unfold stepCells
    rw [List.foldlM_cons]
    have halt : (SubPoint.mk 0 0 550).alt = 550 := rfl
    rw [halt, hcap]
    rfl
  exact (step_union_semantics (fun _ _ _ => []) (fun _ _ _ => ["a"]) [⟨0, 0, 550⟩]
    ["a"] [] "a" hstep).1

/-- C5: the empty-region test of the main loop constructs an exception value
without raising it, so it changes neither the data nor the control flow; a
satellite whose mapped cell set is empty leaves the coverage set of its step,
and hence the coverage map, exactly as if the satellite were absent. -/
theorem empty_cells_not_enforced
    (propagate : GeogPoint → List ℝ → ℝ → List GeogPoint)
    (polyfill : List GeogPoint → Nat → Bool → List String)
    (pts1 pts2 : List SubPoint) (pt : SubPoint) (a : ℝ)
    (h1 : calcCapAngle pt.alt 35 = some a)
    (h2 : get_cell_ids_h3 propagate polyfill pt.lat pt.lng a = []) :
    (∀ cells : List String, emptyRegionCheck cells = cells) ∧
    stepCells propagate polyfill (pts1 ++ pt :: pts2) =
      stepCells propagate polyfill (pts1 ++ pts2) := by
  refine ⟨fun cells => rfl, ?_⟩
  unfold stepCells
  have key : ∀ s0 : List String,
      (pts1 ++ pt :: pts2).foldlM (fun s pt =>
        (calcCapAngle pt.alt 35).map (fun angle =>
          (emptyRegionCheck (get_cell_ids_h3 propagate polyfill pt.lat pt.lng angle)).foldl
            setAdd s)) s0 =
      (pts1 ++ pts2).foldlM (fun s pt =>
        (calcCapAngle pt.alt 35).map (fun angle =>
          (emptyRegionCheck (get_cell_ids_h3 propagate polyfill pt.lat pt.lng angle)).foldl
            setAdd s)) s0 := by
    induction pts1 with
    | nil =>
      intro s0
      rw [List.nil_append, List.nil_append, List.foldlM_cons, h1]
      simp only [Option.map_some', Option.some_bind, emptyRegionCheck_eq, h2]
      rfl
    | cons q pts1 ih =>
      intro s0
      rw [List.cons_append, List.cons_append, List.foldlM_cons, List.foldlM_cons]
      cases hq : calcCapAngle q.alt 35 with
      | none => rfl
      | some aq =>
        simp only [Option.map_some', Option.some_bind]
        exact ih _
  exact key []

/-- Witness for C5: a single satellite at altitude 550 km with an empty mapped
cell set contributes nothing and the step still succeeds. -/
theorem empty_cells_not_enforced_witness :
    emptyRegionCheck ([] : List String) = [] ∧
    stepCells (fun _ _ _ => []) (fun _ _ _ => [])
        ([] ++ (⟨0, 0, 550⟩ : SubPoint) :: []) =
      stepCells (fun _ _ _ => []) (fun _ _ _ => []) ([] ++ []) := by
  have h := empty_cells_not_enforced (fun _ _ _ => []) (fun _ _ _ => []) [] []
    ⟨0, 0, 550⟩ (capAngleVal 550 35)
    (calcCapAngle_of_dom 550 35
      (asinArg_abs_le 550 35 (by norm_num) (by norm_num) (by norm_num)))
    rfl
  exact ⟨h.1 [], h.2⟩

theorem calcCapAngle_neg2000_none : calcCapAngle (-2000) 35 = none := by
  have harg : 1 < asinArg (-2000) 35 := by
    rw [asinArg_eq_cos]
    have ht0 : 0 ≤ to_rads 35 := to_rads_nonneg 35 (by norm_num)
    have htlt : to_rads 35 < π / 4 := by
      unfold to_rads
      nlinarith [Real.pi_pos]
    have hc4 : Real.cos (π / 4) < Real.cos (to_rads 35) := by
      apply Real.strictAntiOn_cos
      · constructor
        · exact ht0
        · linarith [Real.pi_pos]
      · constructor
        · linarith [Real.pi_pos]
        · linarith [Real.pi_pos]
      · exact htlt
    have hs2 : Real.cos (π / 4) = Real.sqrt 2 / 2 := Real.cos_pi_div_four
    have hsqrt : (1.373 : ℝ) < Real.sqrt 2 := by
      nlinarith [Real.sq_sqrt (show (0 : ℝ) ≤ 2 by norm_num), Real.sqrt_nonneg 2]
    have hR : R_MEAN + (-2000) = 4378.1 := by unfold R_MEAN; norm_num
    rw [hR]
    unfold R_MEAN
    rw [hs2] at hc4
    rw [lt_div_iff (by norm_num : (0 : ℝ) < 4378.1)]
    nlinarith [hc4, hsqrt]
  unfold calcCapAngle
  rw [if_neg]
  intro hle
  have hx := le_abs_self (asinArg (-2000) 35)
  linarith

theorem foldlM_const_none (F : CovMap → Nat → Option CovMap)
    (hF : ∀ cov i, F cov i = none) :
    ∀ (l : List Nat) (cov : CovMap), l ≠ [] → l.foldlM F cov = none := by
  intro l cov hl
  cases l with
  | nil => exact absurd rfl hl
  | cons a l =>
    rw [List.foldlM_cons, hF cov a]
    rfl

/-- C4 evaluation: with a single satellite whose sub-satellite altitude is
-2000 km the asin argument exceeds 1, no handler catches the resulting domain
error, and the whole run aborts with no coverage map instead of completing the
remaining satellites and steps. -/
theorem domain_error_aborts_run (p : Nat)
    (propagate : GeogPoint → List ℝ → ℝ → List GeogPoint)
    (polyfill : List GeogPoint → Nat → Bool → List String) :
    calcCapAngle (-2000) 35 = none ∧
    runDriver p (fun _ => [⟨0, 0, -2000⟩]) propagate polyfill = none := by
  refine ⟨calcCapAngle_neg2000_none, ?_⟩
  have hstep : ∀ t : UTCTime, stepCells propagate polyfill
      (((fun _ => [⟨0, 0, -2000⟩]) : UTCTime → List SubPoint) t) = none := by
    intro t
    unfold stepCells
    rw [List.foldlM_cons]
    have halt : (SubPoint.mk 0 0 (-2000)).alt = -2000 := rfl
    rw [halt, calcCapAngle_neg2000_none]
    rfl
  unfold runDriver
  apply foldlM_const_none
  · intro cov i
    rw [hstep (simTime p i)]
    rfl
  · intro hnil
    rw [List.range_eq_nil] at hnil
    norm_num [TIME_PER_PROCESS] at hnil

theorem dictGet_eq_zero_of_not_mem (m : CovMap) (c : String)
    (h : c ∉ m.map Prod.fst) : dictGet m c = 0 := by
  induction m with
  | nil => rfl
  | cons pr rest ih =>
    simp only [List.map_cons, List.mem_cons] at h
    push_neg at h
    rw [dictGet_cons, if_neg (fun hh => h.1 hh.symm), ih h.2]

theorem mem_iff_get (m : CovMap) : keysNodup m → ∀ pr : String × Nat,
    pr ∈ m ↔ pr.1 ∈ m.map Prod.fst ∧ dictGet m pr.1 = pr.2 := by
  induction m with
  | nil =>
    intro _ pr
    simp
  | cons q rest ih =>
    intro hm pr
    unfold keysNodup at hm
    simp only [List.map_cons, List.nodup_cons] at hm
    have ihr := ih hm.2
    constructor
    · intro hmem
      rcases List.mem_cons.mp hmem with heq | hrest
      · subst heq
        simp [dictGet_cons]
      · have h2 := (ihr pr).1 hrest
        have hne : ¬ q.1 = pr.1 := by
          intro hh
          exact hm.1 (hh ▸ h2.1)
        simp only [List.map_cons, List.mem_cons]
        rw [dictGet_cons, if_neg hne]
        exact ⟨Or.inr h2.1, h2.2⟩
    · rintro ⟨hk, hv⟩
      simp only [List.map_cons, List.mem_cons] at hk
      by_cases hq : q.1 = pr.1
      · rw [dictGet_cons, if_pos hq] at hv
        have hpq : pr = q := by
          obtain ⟨a, b⟩ := pr
          obtain ⟨c, d⟩ := q
          rw [Prod.mk.injEq]
          exact ⟨hq.symm, hv.symm⟩
        rw [hpq]
        exact List.mem_cons_self q rest
      · rcases hk with hk1 | hk2
        · exact absurd hk1.symm hq
        · rw [dictGet_cons, if_neg hq] at hv
          exact List.mem_cons_of_mem q ((ihr pr).2 ⟨hk2, hv⟩)

theorem incrAll_keys_mem (l : List String) (m : CovMap) (c : String) :
    c ∈ (incrAll m l).map Prod.fst ↔ c ∈ m.map Prod.fst ∨ c ∈ l := by
  induction l generalizing m with
  | nil => simp [incrAll]
  | cons a l ih =>
    have hstep : incrAll m (a :: l) = incrAll (dictIncr m a) l := rfl
    rw [hstep, ih, dictIncr_keys_mem]
    simp only [List.mem_cons]
    tauto

theorem incrAll_bounds (l : List String) (m : CovMap) (n : Nat)
    (hl : l.Nodup) (hm : keysNodup m)
    (hb : ∀ pr ∈ m, 1 ≤ pr.2 ∧ pr.2 ≤ n) :
    ∀ pr ∈ incrAll m l, 1 ≤ pr.2 ∧ pr.2 ≤ n + 1 := by
  intro pr hpr
  have hk : keysNodup (incrAll m l) := incrAll_keysNodup l m hm
  have h1 := (mem_iff_get (incrAll m l) hk pr).1 hpr
  have h2 := incrAll_get l m pr.1 hl
  rw [h1.2] at h2
  by_cases hmem : pr.1 ∈ m.map Prod.fst
  · have hin : (pr.1, dictGet m pr.1) ∈ m :=
      (mem_iff_get m hm (pr.1, dictGet m pr.1)).2 ⟨hmem, rfl⟩
    have hbb := hb _ hin
    have hbb1 : 1 ≤ dictGet m pr.1 := hbb.1
    have hbb2 : dictGet m pr.1 ≤ n := hbb.2
    by_cases hl2 : pr.1 ∈ l
    · rw [if_pos hl2] at h2
      omega
    · rw [if_neg hl2] at h2
      omega
  · have hz : dictGet m pr.1 = 0 := dictGet_eq_zero_of_not_mem m pr.1 hmem
    have hkey : pr.1 ∈ (incrAll m l).map Prod.fst := h1.1
    rw [incrAll_keys_mem] at hkey
    rcases hkey with hk1 | hk2
    · exact absurd hk1 hmem
    · rw [if_pos hk2, hz] at h2
      omega

theorem stepAccum_bounds (m : CovMap) (css : List (List String)) (n : Nat)
    (hm : keysNodup m) (hb : ∀ pr ∈ m, 1 ≤ pr.2 ∧ pr.2 ≤ n) :
    keysNodup (stepAccum m css) ∧
    ∀ pr ∈ stepAccum m css, 1 ≤ pr.2 ∧ pr.2 ≤ n + 1 :=
  ⟨incrAll_keysNodup _ _ hm, incrAll_bounds _ _ n (buildCovSet_nodup css) hm hb⟩

theorem runSteps_aux (steps : List (List (List String))) :
    ∀ (m0 : CovMap) (n : Nat), keysNodup m0 → (∀ pr ∈ m0, 1 ≤ pr.2 ∧ pr.2 ≤ n) →
      keysNodup (steps.foldl stepAccum m0) ∧
      ∀ pr ∈ steps.foldl stepAccum m0, 1 ≤ pr.2 ∧ pr.2 ≤ n + steps.length := by
  induction steps with
  | nil =>
    intro m0 n hm hb
    refine ⟨hm, ?_⟩
    intro pr hpr
    have h2 := hb pr hpr
    simp only [List.length_nil]
    omega
  | cons css steps ih =>
    intro m0 n hm hb
    have hstep := stepAccum_bounds m0 css n hm hb
    have hrec := ih (stepAccum m0 css) (n + 1) hstep.1 hstep.2
    simp only [List.foldl_cons, List.length_cons]
    refine ⟨hrec.1, ?_⟩
    intro pr hpr
    have h2 := hrec.2 pr hpr
    omega

theorem runDriver_aux (subpt : UTCTime → List SubPoint)
    (propagate : GeogPoint → List ℝ → ℝ → List GeogPoint)
    (polyfill : List GeogPoint → Nat → Bool → List String) (p : Nat) :
    ∀ (l : List Nat) (cov : CovMap) (n : Nat) (m : CovMap),
      keysNodup cov → (∀ pr ∈ cov, 1 ≤ pr.2 ∧ pr.2 ≤ n) →
      l.foldlM (fun cov i => (stepCells propagate polyfill (subpt (simTime p i))).map
        (fun s => incrAll cov s)) cov = some m →
      keysNodup m ∧ ∀ pr ∈ m, 1 ≤ pr.2 ∧ pr.2 ≤ n + l.length := by
  intro l
  induction l with
  | nil =>
    intro cov n m hm hb h
    rw [List.foldlM_nil] at h
    injection h with h
    subst h
    refine ⟨hm, ?_⟩
    intro pr hpr
    have h2 := hb pr hpr
    simp only [List.length_nil]
    omega
  | cons i l ih =>
    intro cov n m hm hb h
    rw [List.foldlM_cons] at h
    cases hsc : stepCells propagate polyfill (subpt (simTime p i)) with
    | none =>
      rw [hsc] at h
      simp at h
    | some s =>
      rw [hsc] at h
      simp only [Option.map_some', Option.some_bind] at h
      have hnd := stepCells_nodup _ _ _ _ hsc
      have hm2 : keysNodup (incrAll cov s) := incrAll_keysNodup s cov hm
      have hb2 : ∀ pr ∈ incrAll cov s, 1 ≤ pr.2 ∧ pr.2 ≤ n + 1 :=
        incrAll_bounds s cov n hnd hm hb
      have hrec := ih (incrAll cov s) (n + 1) m hm2 hb2 h
      refine ⟨hrec.1, ?_⟩
      intro pr hpr
      have h2 := hrec.2 pr hpr
      simp only [List.length_cons]
      omega

/-- C9: after k completed iterations of the accumulation loop every stored
visit count lies between 1 and k inclusive, and every coverage map a full
driver run returns has every count between 1 and TIME_PER_PROCESS = 360, so
every visitCount written to the output file lies in that range. -/
theorem coverage_count_bounds :
    (∀ steps : List (List (List String)), ∀ pr ∈ runSteps steps,
      1 ≤ pr.2 ∧ pr.2 ≤ steps.length) ∧
    TIME_PER_PROCESS = 360 ∧
    (∀ (p : Nat) (subpt : UTCTime → List SubPoint)
      (propagate : GeogPoint → List ℝ → ℝ → List GeogPoint)
      (polyfill : List GeogPoint → Nat → Bool → List String) (m : CovMap),
      runDriver p subpt propagate polyfill = some m →
      ∀ pr ∈ m, 1 ≤ pr.2 ∧ pr.2 ≤ TIME_PER_PROCESS) := by
  refine ⟨?_, by norm_num [TIME_PER_PROCESS], ?_⟩
  · intro steps pr hpr
    have h := (runSteps_aux steps [] 0 (by unfold keysNodup; simp) (by simp)).2 pr hpr
    constructor
    · exact h.1
    · omega
  · intro p subpt propagate polyfill m h
    unfold runDriver at h
    have h2 := runDriver_aux subpt propagate polyfill p (List.range TIME_PER_PROCESS)
      [] 0 m (by unfold keysNodup; simp) (by simp) h
    intro pr hpr
    have h3 := h2.2 pr hpr
    rw [List.length_range] at h3
    exact ⟨h3.1, by omega⟩

/-- Witness for C9: two steps each covering the same single cell give that
cell the count 2, which lies between 1 and the number of steps. -/
theorem coverage_count_bounds_witness :
    1 ≤ (("a", 2) : String × Nat).2 ∧
    (("a", 2) : String × Nat).2 ≤ ([[["a"]], [["a"]]] : List (List (List String))).length :=
  coverage_count_bounds.1 [[["a"]], [["a"]]] ("a", 2) (by decide)

theorem runDriver_keysNodup (p : Nat) (subpt : UTCTime → List SubPoint)
    (propagate : GeogPoint → List ℝ → ℝ → List GeogPoint)
    (polyfill : List GeogPoint → Nat → Bool → List String) (m : CovMap)
    (h : runDriver p subpt propagate polyfill = some m) : keysNodup m := by
  unfold runDriver at h
  exact (runDriver_aux subpt propagate polyfill p _ [] 0 m
    (by unfold keysNodup; simp) (by simp) h).1

/-- C8: a successful run writes exactly one record per distinct covered grid
cell, each record the cell identifier and its visit count separated by a
single comma, to the file named from the resolution level and the process
index. -/
theorem output_format (p : Nat) (subpt : UTCTime → List SubPoint)
    (propagate : GeogPoint → List ℝ → ℝ → List GeogPoint)
    (polyfill : List GeogPoint → Nat → Bool → List String) (m : CovMap)
    (h : runDriver p subpt propagate polyfill = some m) :
    keysNodup m ∧
    outputLines m = m.map (fun pr => pr.1 ++ "," ++ toString pr.2 ++ "\n") ∧
    (outputLines m).length = m.length ∧
    outputFileName p = "h3_4_cov_" ++ toString p ++ ".txt" := by
  refine ⟨runDriver_keysNodup p subpt propagate polyfill m h, rfl, ?_, ?_⟩
  · unfold outputLines
    rw [List.length_map]
  · unfold outputFileName H3_RESOLUTION_LEVEL
    have hpre : ("h3_" ++ toString (4 : Nat)) ++ "_cov_" = "h3_4_cov_" := by decide
    rw [hpre]

theorem runDriver_trivial (p : Nat) :
    runDriver p (fun _ => []) (fun _ _ _ => []) (fun _ _ _ => []) = some [] := by
  unfold runDriver
  have key : ∀ (l : List Nat) (cov : CovMap),
      l.foldlM (fun (cov : CovMap) (_ : Nat) => some cov) cov = some cov := by
    intro l
    induction l with
    | nil =>
      intro cov
      rfl
    | cons i l ih =>
      intro cov
      exact ih cov
  exact key _ []

/-- Witness for C8 on the run with an empty satellite catalog. -/
theorem output_format_witness :
    keysNodup ([] : CovMap) ∧
    outputFileName 0 = "h3_4_cov_" ++ toString (0 : Nat) ++ ".txt" := by
  have h := output_format 0 (fun _ => []) (fun _ _ _ => []) (fun _ _ _ => []) []
    (runDriver_trivial 0)
  exact ⟨h.1, h.2.2.2⟩

/-- C6 counterexample: altitude 0 and elevation 0 satisfy the stated
precondition (altitude at least 0, elevation in [0, 90)), yet calcCapAngle
returns exactly 0, which does not lie in the open interval from 0 to pi over
2. -/
theorem capAngle_zero_altitude_counterexample :
    (0 : ℝ) ≤ 0 ∧ (0 : ℝ) ≤ 0 ∧ (0 : ℝ) < 90 ∧
    calcCapAngle 0 0 = some 0 ∧ (0 : ℝ) ∉ Set.Ioo (0 : ℝ) (π / 2) := by
  have ht : to_rads 0 = 0 := by unfold to_rads; ring
  have harg : asinArg 0 0 = 1 := by
    rw [asinArg_eq_cos, ht, Real.cos_zero, one_mul, add_zero,
      div_self R_MEAN_pos.ne']
  have hcap : calcCapAngle 0 0 = some 0 := by
    unfold calcCapAngle
    rw [harg]
    rw [if_pos (by norm_num : |(1 : ℝ)| ≤ 1)]
    congr 1
    rw [Real.arcsin_one, RIGHT_ANGLE_eq, ht]
    ring
  refine ⟨le_refl 0, le_refl 0, by norm_num, hcap, ?_⟩
  intro hmem
  exact absurd hmem.1 (lt_irrefl 0)

/-- C6 amended: for every strictly positive altitude and elevation in [0, 90)
degrees the cap half-angle returned by calcCapAngle lies strictly between 0
and pi over 2, and for fixed altitude the half-angle value tends to 0 as the
elevation tends to 90 degrees.  (At altitude exactly 0 the function returns
exactly 0, so the open lower bound requires positive altitude.) -/
theorem capAngle_range_amended (alt e : ℝ) (h1 : 0 < alt) (h2 : 0 ≤ e) (h3 : e < 90) :
    (∃ v, calcCapAngle alt e = some v ∧ 0 < v ∧ v < π / 2) ∧
    Filter.Tendsto (fun x => capAngleVal alt x) (nhds 90) (nhds 0) := by
  have ht0 : 0 ≤ to_rads e := to_rads_nonneg e h2
  have htlt : to_rads e < π / 2 := by
    unfold to_rads
    nlinarith [Real.pi_pos]
  have hcos_pos : 0 < Real.cos (to_rads e) :=
    Real.cos_pos_of_mem_Ioo ⟨by linarith [Real.pi_pos], htlt⟩
  have hden_pos : (0 : ℝ) < R_MEAN + alt := by linarith [R_MEAN_pos]
  have hq1 : R_MEAN / (R_MEAN + alt) < 1 := by
    rw [div_lt_one hden_pos]
    linarith
  have hq0 : 0 < R_MEAN / (R_MEAN + alt) := div_pos R_MEAN_pos hden_pos
  have hargeq : asinArg alt e = Real.cos (to_rads e) * (R_MEAN / (R_MEAN + alt)) := by
    rw [asinArg_eq_cos, mul_div_assoc]
  have harg_pos : 0 < asinArg alt e := by
    rw [hargeq]
    exact mul_pos hcos_pos hq0
  have harg_lt : asinArg alt e < Real.cos (to_rads e) := by
    rw [hargeq]
    nlinarith [hcos_pos, hq1, hq0]
  have hcos_le1 : Real.cos (to_rads e) ≤ 1 := Real.cos_le_one _
  have habs : |asinArg alt e| ≤ 1 := by
    rw [abs_le]
    exact ⟨by linarith, by linarith⟩
  have hsin : Real.cos (to_rads e) = Real.sin (π / 2 - to_rads e) :=
    (Real.sin_pi_div_two_sub _).symm
  have harcsin_lt : Real.arcsin (asinArg alt e) < π / 2 - to_rads e := by
    have hmono : Real.arcsin (asinArg alt e) <
        Real.arcsin (Real.sin (π / 2 - to_rads e)) := by
      apply Real.strictMonoOn_arcsin
      · constructor
        · linarith
        · linarith
      · constructor
        · exact Real.neg_one_le_sin _
        · exact Real.sin_le_one _
      · rw [← hsin]
        exact harg_lt
    rwa [Real.arcsin_sin (by linarith [Real.pi_pos]) (by linarith)] at hmono
  have harcsin_pos : 0 < Real.arcsin (asinArg alt e) := Real.arcsin_pos.mpr harg_pos
  refine ⟨⟨capAngleVal alt e, calcCapAngle_of_dom alt e habs, ?_, ?_⟩, ?_⟩
  · unfold capAngleVal
    rw [RIGHT_ANGLE_eq]
    linarith
  · unfold capAngleVal
    rw [RIGHT_ANGLE_eq]
    linarith
  · have hdenc : Continuous (fun x : ℝ =>
        Real.sin (to_rads x + RIGHT_ANGLE) * R_MEAN / (R_MEAN + alt)) := by
      apply Continuous.div_const
      apply Continuous.mul ?_ continuous_const
      apply Real.continuous_sin.comp
      unfold to_rads
      exact (continuous_id.mul continuous_const).add continuous_const
    have hcont : Continuous (fun x : ℝ => capAngleVal alt x) := by
      unfold capAngleVal asinArg
      apply Continuous.sub continuous_const
      apply Continuous.add
      · apply Continuous.add
        · unfold to_rads
          exact continuous_id.mul continuous_const
        · exact continuous_const
      · exact Real.continuous_arcsin.comp hdenc
    have ht90 : to_rads 90 = π / 2 := RIGHT_ANGLE_eq
    have hval : capAngleVal alt 90 = 0 := by
      unfold capAngleVal
      have harg90 : asinArg alt 90 = 0 := by
        rw [asinArg_eq_cos, ht90, Real.cos_pi_div_two, zero_mul, zero_div]
      rw [harg90, Real.arcsin_zero, ht90, RIGHT_ANGLE_eq]
      ring
    have hlim := hcont.tendsto 90
    rwa [hval] at hlim

/-- Witness for the amended C6 at altitude 550 km and elevation 35 degrees. -/
theorem capAngle_range_amended_witness :
    ∃ v, calcCapAngle 550 35 = some v ∧ 0 < v ∧ v < π / 2 :=
  (capAngle_range_amended 550 35 (by norm_num) (by norm_num) (by norm_num)).1

/-- Witness for C7 at bearing index 3. -/
theorem grid_mapper_structure_witness :
    (linspace 0 360 20).getD 3 0 = 360 * (3 : Nat) / 19 :=
  ((grid_mapper_structure (fun _ _ _ => []) (fun _ _ _ => []) 0 0 0).2.1) 3 (by norm_num)
